import Mathlib

/-!
Verification of the speed-reading video generator.

This file gives a shallow embedding of the core pipeline of the repository
(`speedreading.py` and the `backend` package): tokenization, ORP placement,
the wpm pacing schedule, the frame-layout arithmetic of `render_word_frame`,
the job manager / background worker state machine, job submission, and the
chunked video assembly.  Theorems at the end of the file settle the frozen
claims about this code.

Conventions: Python `int` values that are always non-negative in the program
are modelled as `ℕ`; values that may go negative (pixel coordinates) as `ℤ`;
Python floats as `ℝ` where transcendental functions occur (the cosine easing)
and as `ℚ` where only field arithmetic occurs (durations).  Python `//` on
non-negative ints is `Nat` division.
-/

/-! ## Tokenization and ORP calculation (`speedreading.py`) -/

/-- Python `str.isalnum` on a single character (ASCII letters and digits;
the tokens exercised by the claims are ASCII). -/
def isAlnum (c : Char) : Bool := c.isAlphanum

/-- Python `str.isspace` / whitespace class of `str.split` and `re \s`. -/
def isSpace (c : Char) : Bool := c.isWhitespace

/-- Accumulator pass behind `re.sub(r"\s+", " ", text)`: the flag records
whether the previous character belonged to a whitespace run already replaced
by its single space. -/
def collapseWsAux : List Char → Bool → List Char
  | [], _ => []
  | c :: rest, prevSpace =>
    if isSpace c then
      if prevSpace then collapseWsAux rest true
      else ' ' :: collapseWsAux rest true
    else c :: collapseWsAux rest false

/-- `re.sub(r"\s+", " ", text)`: replace each maximal whitespace run by a
single space.  (`clean_text`'s second substitution, collapsing `\n{3,}`, is a
no-op after this one since no newline survives.) -/
def collapseWs (l : List Char) : List Char := collapseWsAux l false

/-- Python `str.strip`. -/
def stripWs (l : List Char) : List Char :=
  ((l.dropWhile fun c => isSpace c).reverse.dropWhile fun c => isSpace c).reverse

/-- `clean_text` from `speedreading.py`: collapse whitespace runs, then strip. -/
def clean_text (l : List Char) : List Char := stripWs (collapseWs l)

/-- Accumulator pass behind `str.split()`: split on whitespace runs, dropping
empty pieces. -/
def splitWsAux : List Char → List Char → List (List Char)
  | [], cur => if cur = [] then [] else [cur.reverse]
  | c :: rest, cur =>
    if isSpace c then
      if cur = [] then splitWsAux rest [] else cur.reverse :: splitWsAux rest []
    else splitWsAux rest (c :: cur)

/-- `tokenize_text` from `speedreading.py`: `text.split()`, then keep only
words that are non-empty after `strip` (a no-op on split output, kept for
fidelity). -/
def tokenize_text (l : List Char) : List (List Char) :=
  (splitWsAux l []).filter fun w => stripWs w ≠ []

/-- `calculate_orp` from `speedreading.py`: table index from the word's
length (1 letter → 0, 2–5 → 1, 6–9 → 2, 10–13 → 3, 14+ → 4). -/
def calculate_orp (word : List Char) : ℕ :=
  if word.length ≤ 1 then 0
  else if word.length ≤ 5 then 1
  else if word.length ≤ 9 then 2
  else if word.length ≤ 13 then 3
  else 4

/-- The alphanumeric core of a token:
`''.join(c for c in word if c.isalnum())`. -/
def cleanWordOf (w : List Char) : List Char := w.filter fun c => isAlnum c

/-- The count of leading non-alphanumeric characters of a token
(the `leading_punct` loop in `generate_speed_reading_video`). -/
def leadingPunct (w : List Char) : ℕ :=
  (w.takeWhile fun c => !(isAlnum c)).length

/-- The `orp_index` stored in the `WordFrame` built by
`generate_speed_reading_video`:
`(calculate_orp(clean_word) if clean_word else 0) + leading_punct`.
No clamp is applied at this point in the code. -/
def orpIndexOf (w : List Char) : ℕ :=
  (if cleanWordOf w = [] then 0 else calculate_orp (cleanWordOf w)) + leadingPunct w

/-! ## Frame layout (`render_word_frame`) -/

/-- `orp_idx = min(word_frame.orp_index, len(word) - 1)` in
`render_word_frame`. -/
def orpIdxClamped (word : List Char) (orpIndex : ℕ) : ℕ :=
  min orpIndex (word.length - 1)

/-- The per-character advance widths `char_widths`, for an arbitrary
width-measurement function (the font's `textbbox` widths). -/
def charWidths (cw : Char → ℕ) (word : List Char) : List ℕ := word.map cw

/-- `start_x = center_x - chars_before_orp_width - orp_char_width // 2` in
`render_word_frame`, with `center_x = width // 2`,
`orp_char_width = char_widths[orp_idx] if char_widths else 0` and
`chars_before_orp_width = sum(char_widths[:orp_idx])`. -/
def startX (width : ℕ) (cw : Char → ℕ) (word : List Char) (orpIndex : ℕ) : ℤ :=
  let ws := charWidths cw word
  let oi := orpIdxClamped word orpIndex
  let orpW : ℕ := ws.getD oi 0
  ((width / 2 : ℕ) : ℤ) - (((ws.take oi).sum : ℕ) : ℤ) - ((orpW / 2 : ℕ) : ℤ)

/-- The character/colour pairs drawn by the `for i, char in enumerate(word)`
loop of `render_word_frame`: the character at the clamped ORP index gets the
highlight colour, every other character the body colour. -/
def renderChars (word : List Char) (orpIndex : ℕ) (textColor orpColor : String) :
    List (Char × String) :=
  word.enum.map fun p =>
    (p.2, if p.1 = orpIdxClamped word orpIndex then orpColor else textColor)

/-- The start-x formula in the words of the specification: the canvas centre,
minus the summed widths of the characters preceding the ORP character, minus
half the ORP character's own width. -/
def claimedStartX (width : ℕ) (cw : Char → ℕ) (word : List Char) (orp : ℕ) : ℤ :=
  ((width / 2 : ℕ) : ℤ) - ((((word.take orp).map cw).sum : ℕ) : ℤ)
    - ((cw (word.getD orp 'A') / 2 : ℕ) : ℤ)

/-! ## WPM scheduling (`create_wpm_schedule`) -/

/-- The `ramp_style` values accepted by `create_wpm_schedule` (the `RampStyle`
enum of `backend/models.py`; any other string raises `ValueError`, which the
enum argument makes unrepresentable here). -/
inductive RampStyle
  | smooth
  | linear
  | stepped
deriving DecidableEq

/-- The ramp length `create_wpm_schedule` actually uses once `total_words ≥ 2`:
the given `ramp_words`, or `max(20, int(total_words * 0.1))` when absent,
clamped by `min(ramp_words, total_words)`.  For the word counts arising here
Python's `int(total_words * 0.1)` equals `total_words // 10`, which is how the
truncation is rendered. -/
def effRamp (total : ℕ) (rw : Option ℕ) : ℕ :=
  min (rw.getD (max 20 (total / 10))) total

/-- The per-index wpm of the `smooth` branch:
cosine ease-in-out `start + (peak - start) * (1 - cos(progress * pi)) / 2`
during the ramp, `peak` afterwards. -/
noncomputable def smoothWpm (start peak : ℝ) (ramp : ℕ) (i : ℕ) : ℝ :=
  if i < ramp then
    start + (peak - start) * ((1 - Real.cos ((i : ℝ) / (ramp : ℝ) * Real.pi)) / 2)
  else peak

/-- The per-index wpm of the `linear` branch. -/
noncomputable def linearWpm (start peak : ℝ) (ramp : ℕ) (i : ℕ) : ℝ :=
  if i < ramp then start + (peak - start) * ((i : ℝ) / (ramp : ℝ)) else peak

/-- The per-index wpm of the `stepped` branch:
`words_per_step = max(1, ramp_words // 6)`,
`step = min(i // words_per_step, 6)`,
`wpm = start + (peak - start) / 6 * step`. -/
noncomputable def steppedWpm (start peak : ℝ) (ramp : ℕ) (i : ℕ) : ℝ :=
  if i < ramp then
    start + (peak - start) / 6 * ((min (i / max 1 (ramp / 6)) 6 : ℕ) : ℝ)
  else peak

/-- `create_wpm_schedule` from `speedreading.py`: `total_words ≤ 1` returns
`[start_wpm]`; otherwise one wpm value per word index according to the ramp
style. -/
noncomputable def create_wpm_schedule (start peak : ℝ) (total : ℕ)
    (rw : Option ℕ) (style : RampStyle) : List ℝ :=
  if total ≤ 1 then [start]
  else
    match style with
    | .smooth => (List.range total).map (smoothWpm start peak (effRamp total rw))
    | .linear => (List.range total).map (linearWpm start peak (effRamp total rw))
    | .stepped => (List.range total).map (steppedWpm start peak (effRamp total rw))

/-- The `stepped` formula in the words of the claim: the ramp is divided into
6 equal word-count steps (so the step containing index `i` is
`⌊i / (ramp / 6)⌋ = ⌊6 * i / ramp⌋`), and during the ramp
`wpm = start + step_index * (peak - start) / 6` capped at `peak`. -/
noncomputable def claimedSteppedWpm (start peak : ℝ) (ramp : ℕ) (i : ℕ) : ℝ :=
  if i < ramp then min (start + (peak - start) / 6 * ((6 * i / ramp : ℕ) : ℝ)) peak
  else peak

/-! ## Job records, updates, and the job manager
(`backend/models.py`, `backend/services/job_manager.py`) -/

/-- `JobStatus` from `backend/models.py`. -/
inductive JStatus
  | pending
  | processing
  | completed
  | failed
deriving DecidableEq

/-- The raw submission parameters, one field per `VideoParams` field of
`backend/models.py`, before pydantic validation. -/
structure RawParams where
  start_wpm : ℤ
  peak_wpm : ℤ
  ramp_words : Option ℤ
  ramp_style : String
  chunk_duration : Option ℚ
  width : ℤ
  height : ℤ
  font_size : ℤ
  fps : ℤ
  bg_color : String
  text_color : String
  orp_color : String
  show_wpm : Bool
  preprocess : Bool
deriving DecidableEq

/-- A stored job record: the fields written by
`JobManager.initialize_job` and mutated by `JobManager.update_job`. -/
structure JobData where
  id : String
  status : JStatus
  filename : String
  uploadPath : String
  params : RawParams
  createdAt : String
  startedAt : Option String
  completedAt : Option String
  progressPercent : ℕ
  currentStep : String
  totalWords : Option ℕ
  processedWords : Option ℕ
  outputFiles : List String
  errorMessage : Option String
  videoDurationSeconds : Option ℚ
deriving DecidableEq

/-- A `**updates` keyword-argument set passed to `JobManager.update_job`:
`none` means the key is absent, `some v` means the field is set to `v`.
Only the fields the application ever passes are representable. -/
structure JobUpdates where
  status : Option JStatus := none
  startedAt : Option String := none
  completedAt : Option String := none
  progressPercent : Option ℕ := none
  currentStep : Option String := none
  totalWords : Option ℕ := none
  outputFiles : Option (List String) := none
  errorMessage : Option String := none
  videoDurationSeconds : Option (Option ℚ) := none
deriving DecidableEq

/-- `job_data.update(updates)`: each supplied key overwrites the stored
field, absent keys leave it unchanged. -/
def applyUpdate (j : JobData) (u : JobUpdates) : JobData :=
  { j with
    status := u.status.getD j.status
    startedAt := (u.startedAt.map some).getD j.startedAt
    completedAt := (u.completedAt.map some).getD j.completedAt
    progressPercent := u.progressPercent.getD j.progressPercent
    currentStep := u.currentStep.getD j.currentStep
    totalWords := (u.totalWords.map some).getD j.totalWords
    outputFiles := u.outputFiles.getD j.outputFiles
    errorMessage := (u.errorMessage.map some).getD j.errorMessage
    videoDurationSeconds := u.videoDurationSeconds.getD j.videoDurationSeconds }

/-- The job store: the `storage/jobs/{job_id}.json` files, keyed by job id. -/
abbrev JobStore := List (String × JobData)

/-- Whether `storage/jobs/{job_id}.json` exists, and its contents. -/
def lookupJob (st : JobStore) (id : String) : Option JobData :=
  match st with
  | [] => none
  | (k, j) :: rest => if k = id then some j else lookupJob rest id

/-- Writing `storage/jobs/{job_id}.json`. -/
def writeJob (st : JobStore) (id : String) (j : JobData) : JobStore :=
  match st with
  | [] => [(id, j)]
  | (k, j0) :: rest => if k = id then (k, j) :: rest else (k, j0) :: writeJob rest id j

/-- `JobManager.update_job`: if the job file does not exist, return `None`
and write nothing; otherwise read, merge the updates, and write back
(all under the per-job lock). -/
def updateJob (st : JobStore) (id : String) (u : JobUpdates) :
    Option JobData × JobStore :=
  match lookupJob st id with
  | none => (none, st)
  | some j =>
    let j2 := applyUpdate j u
    (some j2, writeJob st id j2)

/-- `JobManager.delete_job`'s effect on the job store: the record for `id`
is removed (upload and output artifacts are filesystem state outside this
store). -/
def deleteJob (st : JobStore) (id : String) : JobStore :=
  st.filter fun p => p.1 ≠ id

/-- `JobManager.initialize_job`: the initial PENDING record. -/
def initJob (id filename uploadPath : String) (params : RawParams)
    (createdAt : String) : JobData :=
  { id := id
    status := .pending
    filename := filename
    uploadPath := uploadPath
    params := params
    createdAt := createdAt
    startedAt := none
    completedAt := none
    progressPercent := 0
    currentStep := "Queued"
    totalWords := none
    processedWords := none
    outputFiles := []
    errorMessage := none
    videoDurationSeconds := none }

/-! ## The background worker (`backend/workers/background.py`) -/

/-- How the pipeline stages of one `process_video_job` run turn out:
extraction/tokenization raises, video generation raises, or everything
succeeds (with the measured output duration, `0` when the best-effort
measurement fails at once). -/
inductive PipelineOutcome
  | extractFail (msg : String)
  | generateFail (totalWords : ℕ) (msg : String)
  | ok (totalWords : ℕ) (files : List String) (duration : ℚ)

/-- The first `update_job` of the worker: mark PROCESSING. -/
def processingUpdate (t1 : String) : JobUpdates :=
  { status := some .processing
    startedAt := some t1
    currentStep := some "Extracting text from document" }

/-- The worker's update after tokenization. -/
def totalWordsUpdate (tw : ℕ) : JobUpdates :=
  { totalWords := some tw
    currentStep := some ("Found " ++ toString tw ++ " words, starting video generation")
    progressPercent := some 10 }

/-- The worker's update before frame generation. -/
def generatingUpdate : JobUpdates :=
  { currentStep := some "Generating video frames"
    progressPercent := some 20 }

/-- The worker's terminal COMPLETED update; `video_duration_seconds` is
`total_duration if total_duration > 0 else None`. -/
def completedUpdate (t2 : String) (files : List String) (dur : ℚ) : JobUpdates :=
  { status := some .completed
    completedAt := some t2
    progressPercent := some 100
    currentStep := some "Complete"
    outputFiles := some files
    videoDurationSeconds := some (if 0 < dur then some dur else none) }

/-- The worker's terminal FAILED update from the top-level `except` handler:
`error_message = str(e)` and a completion timestamp. -/
def failedUpdate (t2 msg : String) : JobUpdates :=
  { status := some .failed
    completedAt := some t2
    errorMessage := some msg
    currentStep := some "Failed" }

/-- The sequence of states of the driven job's record over one
`process_video_job` run (initial record included), for each possible
pipeline outcome.  The job-manager lock serializes each read-modify-write,
so with exactly one worker the record passes through exactly these states. -/
def workerTrace (j0 : JobData) (t1 t2 : String) : PipelineOutcome → List JobData
  | .extractFail msg =>
    let j1 := applyUpdate j0 (processingUpdate t1)
    [j0, j1, applyUpdate j1 (failedUpdate t2 msg)]
  | .generateFail tw msg =>
    let j1 := applyUpdate j0 (processingUpdate t1)
    let j2 := applyUpdate j1 (totalWordsUpdate tw)
    let j3 := applyUpdate j2 generatingUpdate
    [j0, j1, j2, j3, applyUpdate j3 (failedUpdate t2 msg)]
  | .ok tw files dur =>
    let j1 := applyUpdate j0 (processingUpdate t1)
    let j2 := applyUpdate j1 (totalWordsUpdate tw)
    let j3 := applyUpdate j2 generatingUpdate
    [j0, j1, j2, j3, applyUpdate j3 (completedUpdate t2 files dur)]

/-- The transitions the lifecycle claim allows between successive stored
states: stay put, PENDING → PROCESSING, or PROCESSING → {COMPLETED, FAILED}. -/
def statusStep (a b : JStatus) : Bool :=
  a == b || (a == .pending && b == .processing)
    || (a == .processing && (b == .completed || b == .failed))

/-! ## Chunked video assembly -/

/-- A word unit consumed by the video assembler: token, ORP index, display
duration in seconds. -/
structure WordUnit where
  word : List Char
  orpIndex : ℕ
  duration : ℚ
deriving DecidableEq

/-- Modelled from the spec: `generate_chunked_videos` is imported by
`backend/workers/background.py` from `speedreading.py` but is not present in
the sources; §4.6 of the specification describes its chunked mode as
partitioning the WordUnit sequence into maximal contiguous runs whose
cumulative duration does not exceed the configured chunk length, never
splitting a word.  Greedy accumulator: `cur` is the (reversed) current run,
`acc` its cumulative duration. -/
def chunkGo (d : ℚ) : List WordUnit → List WordUnit → ℚ → List (List WordUnit)
  | [], cur, _ => if cur = [] then [] else [cur.reverse]
  | u :: rest, cur, acc =>
    if cur = [] ∨ acc + u.duration ≤ d then chunkGo d rest (u :: cur) (acc + u.duration)
    else cur.reverse :: chunkGo d rest [u] u.duration

/-- Modelled from the spec: the chunk partition of a WordUnit sequence
(one emitted file per chunk, in sequence order). -/
def chunkUnits (d : ℚ) (us : List WordUnit) : List (List WordUnit) :=
  chunkGo d us [] 0

/-! ## Submission (`backend/routes/jobs.py`, `backend/services/file_handler.py`) -/

/-- The final path component, as `pathlib` uses for `Path(filename).suffix`. -/
def lastComponent (cs : List Char) : List Char :=
  cs.foldl (fun acc c => if c = '/' then [] else acc ++ [c]) []

/-- The index of the last `'.'` in a name, if any. -/
def lastDotIdx (cs : List Char) : Option ℕ :=
  (List.range cs.length).foldl
    (fun acc i => if cs.getD i ' ' = '.' then some i else acc) none

/-- Python `Path(name).suffix`: the final extension with its dot, empty when
the only dot is leading (hidden files) or trailing. -/
def pySuffix (cs : List Char) : List Char :=
  let name := lastComponent cs
  match lastDotIdx name with
  | none => []
  | some i => if 0 < i ∧ i + 1 < name.length then name.drop i else []

/-- `validate_file` from `backend/services/file_handler.py`: the lowercased
extension must be one of `.pdf`, `.epub`, `.txt`. -/
def validExt (filename : String) : Bool :=
  let ext := (pySuffix filename.data).map Char.toLower
  ext == ".pdf".data || ext == ".epub".data || ext == ".txt".data

/-- Hexadecimal digit test for the `^#[0-9a-fA-F]{6}$` colour pattern. -/
def isHexDigitChar (c : Char) : Bool :=
  c.isDigit || (97 ≤ c.toNat && c.toNat ≤ 102) || (65 ≤ c.toNat && c.toNat ≤ 70)

/-- The `VideoParams` colour pattern `^#[0-9a-fA-F]{6}$`. -/
def hexColorOk (s : String) : Bool :=
  match s.data with
  | c :: rest => c == '#' && rest.length == 6 && rest.all isHexDigitChar
  | [] => false

/-- A valid `ramp_style` string for the `RampStyle` enum. -/
def styleOk (s : String) : Bool :=
  s == "smooth" || s == "linear" || s == "stepped"

/-- Pydantic validation of `VideoParams` (`backend/models.py`): every field
constraint of the model. -/
def validParams (r : RawParams) : Bool :=
  decide (50 ≤ r.start_wpm) && decide (r.start_wpm ≤ 1000)
    && decide (100 ≤ r.peak_wpm) && decide (r.peak_wpm ≤ 2000)
    && (match r.ramp_words with
        | none => true
        | some v => decide (10 ≤ v) && decide (v ≤ 500))
    && styleOk r.ramp_style
    && (match r.chunk_duration with
        | none => true
        | some v => decide (5 ≤ v) && decide (v ≤ 300))
    && decide (640 ≤ r.width) && decide (r.width ≤ 3840)
    && decide (480 ≤ r.height) && decide (r.height ≤ 2160)
    && decide (24 ≤ r.font_size) && decide (r.font_size ≤ 300)
    && decide (15 ≤ r.fps) && decide (r.fps ≤ 60)
    && hexColorOk r.bg_color && hexColorOk r.text_color && hexColorOk r.orp_color

/-- The stores the submission endpoint can touch: job records, stored
uploads, and the supply of not-yet-minted job ids
(`JobManager.create_job` takes the next one). -/
structure SubmitState where
  jobs : JobStore
  uploads : List (String × String)
  idSupply : List String
deriving DecidableEq

/-- `create_job` from `backend/routes/jobs.py`: validate the file, validate
the parameters, and only then mint a job id, save the upload, and create the
job record. -/
def submit (st : SubmitState) (filename content createdAt : String)
    (r : RawParams) : Except String String × SubmitState :=
  if validExt filename = false then (.error "Invalid file type", st)
  else if validParams r = false then (.error "Invalid parameters", st)
  else
    let id := st.idSupply.headD "job0"
    let uploadPath := id ++ "_" ++ filename
    let st2 : SubmitState :=
      { jobs := writeJob st.jobs id (initJob id filename uploadPath r createdAt)
        uploads := (uploadPath, content) :: st.uploads
        idSupply := st.idSupply.tail }
    (.ok id, st2)

/-! ## Helper lemmas -/

theorem takeWhile_length_le_filter (p : Char → Bool) (l : List Char) :
    (l.takeWhile p).length ≤ (l.filter p).length := by
  induction l with
  | nil => simp
  | cons c rest ih =>
    rw [List.takeWhile_cons, List.filter_cons]
    by_cases hc : p c
    · simp only [hc, if_pos, List.length_cons]
      omega
    · simp [hc]

theorem filter_length_split (p : Char → Bool) (l : List Char) :
    (l.filter p).length + (l.filter fun c => !(p c)).length = l.length := by
  induction l with
  | nil => simp
  | cons c rest ih =>
    rw [List.filter_cons, List.filter_cons]
    by_cases hc : p c <;> simp [hc] <;> omega

theorem calculate_orp_le (w : List Char) (h : w ≠ []) :
    calculate_orp w ≤ w.length - 1 := by
  have hl : 1 ≤ w.length := List.length_pos.mpr h
  unfold calculate_orp
  split_ifs <;> omega

/-! ## Claim C1 -/

/-- Claim C1 is false as stated: the pipeline applies no clamp when building
the `WordFrame`, so the all-punctuation token `"..."` — which tokenization
does produce — gets `orp_index = 0 + 3 = 3`, outside `[0, len(token)-1] = [0, 2]`. -/
theorem wordframe_orp_counterexample :
    tokenize_text (clean_text ("...".data)) = [['.', '.', '.']] ∧
    orpIndexOf ['.', '.', '.'] = 3 ∧
    ¬ orpIndexOf ['.', '.', '.'] ≤ (['.', '.', '.'] : List Char).length - 1 := by
  decide

/-- Claim C1 (amended): for every non-empty token, `orp_index ≥ 0` always
holds, and `orp_index ≤ len(token) - 1` holds whenever the token contains at
least one alphanumeric character; a token with no alphanumeric character gets
`orp_index = len(token)`, one past the claimed range, and the clamp into
`[0, len(token)-1]` is applied only later, by `render_word_frame`
(`min(orp_index, len(word)-1)`). -/
theorem wordframe_orp_in_range (w : List Char) (h : w ≠ []) :
    ((∃ c ∈ w, isAlnum c = true) → orpIndexOf w ≤ w.length - 1) ∧
    ((∀ c ∈ w, isAlnum c = false) → orpIndexOf w = w.length) ∧
    orpIdxClamped w (orpIndexOf w) ≤ w.length - 1 := by
  refine ⟨?_, ?_, min_le_right _ _⟩
  · rintro ⟨c, hc, hca⟩
    have hcore : cleanWordOf w ≠ [] :=
      List.ne_nil_of_mem (List.mem_filter.mpr ⟨hc, hca⟩)
    have h1 : calculate_orp (cleanWordOf w) ≤ (cleanWordOf w).length - 1 :=
      calculate_orp_le _ hcore
    have hcl : 1 ≤ (cleanWordOf w).length := List.length_pos.mpr hcore
    have h2 : leadingPunct w ≤ (w.filter fun c => !(isAlnum c)).length :=
      takeWhile_length_le_filter _ _
    have h3 : (cleanWordOf w).length + (w.filter fun c => !(isAlnum c)).length
        = w.length := filter_length_split _ _
    unfold orpIndexOf
    rw [if_neg hcore]
    omega
  · intro hall
    have hcore : cleanWordOf w = [] := by
      unfold cleanWordOf
      refine List.filter_eq_nil_iff.mpr ?_
      intro c hc
      simp [hall c hc]
    have hlead : leadingPunct w = w.length := by
      unfold leadingPunct
      rw [List.takeWhile_eq_self_iff.mpr ?_]
      intro c hc
      simp [hall c hc]
    unfold orpIndexOf
    rw [if_pos hcore, hlead]
    omega

/-- Witness for the amended C1 at the token `"Hello,"` of spec Scenario B. -/
theorem wordframe_orp_in_range_witness :
    ((∃ c ∈ "Hello,".data, isAlnum c = true) →
      orpIndexOf "Hello,".data ≤ "Hello,".data.length - 1) ∧
    ((∀ c ∈ "Hello,".data, isAlnum c = false) →
      orpIndexOf "Hello,".data = "Hello,".data.length) ∧
    orpIdxClamped "Hello,".data (orpIndexOf "Hello,".data) ≤ "Hello,".data.length - 1 :=
  wordframe_orp_in_range "Hello,".data (by decide)

/-! ## Schedule lemmas -/

/-- The per-index wpm function of each ramp style. -/
noncomputable def styleWpm : RampStyle → ℝ → ℝ → ℕ → ℕ → ℝ
  | .smooth => smoothWpm
  | .linear => linearWpm
  | .stepped => steppedWpm

theorem schedule_eq_map (start peak : ℝ) (total : ℕ) (rw : Option ℕ)
    (style : RampStyle) (h2 : 2 ≤ total) :
    create_wpm_schedule start peak total rw style =
      (List.range total).map (styleWpm style start peak (effRamp total rw)) := by
  unfold create_wpm_schedule
  rw [if_neg (by omega)]
  cases style <;> rfl

theorem getD_map_range (f : ℕ → ℝ) {n i : ℕ} (h : i < n) :
    ((List.range n).map f).getD i 0 = f i := by
  rw [List.getD_eq_getElem ((List.range n).map f) 0 (by simpa using h)]
  simp

theorem chain'_map_range_of_mono (f : ℕ → ℝ) (n : ℕ)
    (hf : ∀ i, f i ≤ f (i + 1)) :
    List.Chain' (fun a b => a ≤ b) ((List.range n).map f) := by
  rw [List.chain'_map]
  cases n with
  | zero => simp
  | succ k => exact (List.chain'_range_succ _ k).mpr fun m _ => hf m

theorem smoothWpm_mono (start peak : ℝ) (ramp : ℕ) (hsp : start ≤ peak)
    {i j : ℕ} (hij : i ≤ j) :
    smoothWpm start peak ramp i ≤ smoothWpm start peak ramp j := by
  unfold smoothWpm
  have hd : (0 : ℝ) ≤ peak - start := by linarith
  by_cases hj : j < ramp
  · have hi : i < ramp := lt_of_le_of_lt hij hj
    rw [if_pos hi, if_pos hj]
    have hr : (0 : ℝ) < ramp := by
      exact_mod_cast Nat.lt_of_le_of_lt (Nat.zero_le j) hj
    have hx0 : 0 ≤ (i : ℝ) / ramp * Real.pi := by positivity
    have hy1 : (j : ℝ) / ramp ≤ 1 := by
      rw [div_le_one hr]
      exact_mod_cast le_of_lt hj
    have hyp : (j : ℝ) / ramp * Real.pi ≤ Real.pi := by
      nlinarith [Real.pi_pos]
    have hxy : (i : ℝ) / ramp * Real.pi ≤ (j : ℝ) / ramp * Real.pi := by
      have hdv : (i : ℝ) / ramp ≤ (j : ℝ) / ramp := by
        rw [div_le_div_iff_of_pos_right hr]
        exact_mod_cast hij
      nlinarith [Real.pi_pos]
    have hcos := Real.cos_le_cos_of_nonneg_of_le_pi hx0 hyp hxy
    nlinarith
  · rw [if_neg hj]
    by_cases hi : i < ramp
    · rw [if_pos hi]
      have hcos := Real.neg_one_le_cos ((i : ℝ) / ramp * Real.pi)
      nlinarith
    · rw [if_neg hi]

theorem linearWpm_mono (start peak : ℝ) (ramp : ℕ) (hsp : start ≤ peak)
    {i j : ℕ} (hij : i ≤ j) :
    linearWpm start peak ramp i ≤ linearWpm start peak ramp j := by
  unfold linearWpm
  have hd : (0 : ℝ) ≤ peak - start := by linarith
  by_cases hj : j < ramp
  · have hi : i < ramp := lt_of_le_of_lt hij hj
    rw [if_pos hi, if_pos hj]
    have hr : (0 : ℝ) < ramp := by
      exact_mod_cast Nat.lt_of_le_of_lt (Nat.zero_le j) hj
    have hdv : (i : ℝ) / ramp ≤ (j : ℝ) / ramp := by
      rw [div_le_div_iff_of_pos_right hr]
      exact_mod_cast hij
    nlinarith
  · rw [if_neg hj]
    by_cases hi : i < ramp
    · rw [if_pos hi]
      have hr : (0 : ℝ) < ramp := by
        exact_mod_cast Nat.lt_of_le_of_lt (Nat.zero_le i) hi
      have hdv : (i : ℝ) / ramp ≤ 1 := by
        rw [div_le_one hr]
        exact_mod_cast le_of_lt hi
      nlinarith
    · rw [if_neg hi]

theorem steppedWpm_le_peak (start peak : ℝ) (ramp : ℕ) (hsp : start ≤ peak)
    (i : ℕ) : steppedWpm start peak ramp i ≤ peak := by
  unfold steppedWpm
  have hd : (0 : ℝ) ≤ peak - start := by linarith
  by_cases hi : i < ramp
  · rw [if_pos hi]
    have hstep : ((min (i / max 1 (ramp / 6)) 6 : ℕ) : ℝ) ≤ 6 := by
      exact_mod_cast min_le_right (i / max 1 (ramp / 6)) 6
    have hpos : (0 : ℝ) ≤ ((min (i / max 1 (ramp / 6)) 6 : ℕ) : ℝ) := by positivity
    nlinarith
  · rw [if_neg hi]

theorem steppedWpm_mono (start peak : ℝ) (ramp : ℕ) (hsp : start ≤ peak)
    {i j : ℕ} (hij : i ≤ j) :
    steppedWpm start peak ramp i ≤ steppedWpm start peak ramp j := by
  by_cases hj : j < ramp
  · have hi : i < ramp := lt_of_le_of_lt hij hj
    unfold steppedWpm
    rw [if_pos hi, if_pos hj]
    have hd : (0 : ℝ) ≤ peak - start := by linarith
    have hstep : ((min (i / max 1 (ramp / 6)) 6 : ℕ) : ℝ)
        ≤ ((min (j / max 1 (ramp / 6)) 6 : ℕ) : ℝ) := by
      exact_mod_cast min_le_min (Nat.div_le_div_right hij) (le_refl 6)
    nlinarith
  · have hpk : steppedWpm start peak ramp j = peak := by
      unfold steppedWpm
      rw [if_neg hj]
    rw [hpk]
    exact steppedWpm_le_peak start peak ramp hsp i

theorem styleWpm_mono (style : RampStyle) (start peak : ℝ) (ramp : ℕ)
    (hsp : start ≤ peak) {i j : ℕ} (hij : i ≤ j) :
    styleWpm style start peak ramp i ≤ styleWpm style start peak ramp j := by
  cases style
  · exact smoothWpm_mono start peak ramp hsp hij
  · exact linearWpm_mono start peak ramp hsp hij
  · exact steppedWpm_mono start peak ramp hsp hij

theorem styleWpm_peak (style : RampStyle) (start peak : ℝ) (ramp : ℕ)
    {i : ℕ} (hi : ramp ≤ i) : styleWpm style start peak ramp i = peak := by
  cases style <;>
    simp only [styleWpm, smoothWpm, linearWpm, steppedWpm] <;>
    rw [if_neg (by omega)]

/-! ## Claim C3 -/

/-- Claim C3 is false as stated over every `total_words`: with
`start_wpm = 200 < 600 = peak_wpm`, `total_words = 1` and `ramp_words = 0`,
the schedule is `[200]`, yet index `0 ≥ ramp_words` would have to carry
`peak_wpm = 600`. -/
theorem schedule_peak_counterexample :
    (200 : ℝ) ≤ 600 ∧
    (create_wpm_schedule 200 600 1 (some 0) RampStyle.linear).getD 0 0 = 200 ∧
    ¬ (create_wpm_schedule 200 600 1 (some 0) RampStyle.linear).getD 0 0 = 600 := by
  refine ⟨by norm_num, ?_, ?_⟩ <;> simp [create_wpm_schedule]

/-- Claim C3 (amended): restricted to `total_words ≥ 2` (for
`total_words ≤ 1` the function instead returns the single value
`[start_wpm]`), for every `start_wpm ≤ peak_wpm`, every `ramp_words`
(given or defaulted) and each of the three ramp styles, the schedule is
non-decreasing and equals `peak_wpm` at every index from the effective
(clamped) ramp length on — in particular at every index `i ≥ ramp_words`. -/
theorem schedule_monotone_and_peak (start peak : ℝ) (total : ℕ)
    (rw : Option ℕ) (style : RampStyle) (hsp : start ≤ peak) (h2 : 2 ≤ total) :
    List.Chain' (fun a b => a ≤ b) (create_wpm_schedule start peak total rw style) ∧
    ∀ i, effRamp total rw ≤ i → i < total →
      (create_wpm_schedule start peak total rw style).getD i 0 = peak := by
  have hmap := schedule_eq_map start peak total rw style h2
  constructor
  · rw [hmap]
    exact chain'_map_range_of_mono _ total fun i =>
      styleWpm_mono style start peak (effRamp total rw) hsp (Nat.le_succ i)
  · intro i hra hi
    rw [hmap, getD_map_range _ hi, styleWpm_peak style start peak _ hra]

/-! ## Claim C6 -/

/-- Claim C6 is false as stated: the code computes the default ramp with
truncation (`int(total_words * 0.1)`), not rounding.  At
`total_words = 209` the code uses `max(20, 20) = 20` whereas
`max(20, round(20.9)) = 21`; the schedule already sits at `peak_wpm` at
index 20, which under the claimed default it could not. -/
theorem default_ramp_counterexample :
    effRamp 209 none ≠ max 20 (Int.toNat (round ((209 : ℚ) / 10))) ∧
    effRamp 209 none = 20 ∧
    max 20 (Int.toNat (round ((209 : ℚ) / 10))) = 21 ∧
    (create_wpm_schedule 200 600 209 none RampStyle.linear).getD 20 0 = 600 := by
  have h209 : effRamp 209 none = 20 := by norm_num [effRamp]
  have hround : round ((209 : ℚ) / 10) = 21 := by
    rw [round_eq]
    norm_num
  refine ⟨?_, h209, ?_, ?_⟩
  · rw [h209, hround]
    decide
  · rw [hround]
    decide
  · rw [schedule_eq_map 200 600 209 none RampStyle.linear (by norm_num),
      getD_map_range _ (by norm_num : (20 : ℕ) < 209)]
    rw [h209]
    norm_num [styleWpm, linearWpm]

/-- Claim C6 (amended): for every `total_words ≥ 2`, when `ramp_words` is
absent `create_wpm_schedule` uses `ramp_words = max(20, ⌊0.1 * total_words⌋)`
— truncation, not rounding — and the given or defaulted value is clamped to
`total_words`. -/
theorem default_ramp_amended (total : ℕ) (rw : Option ℕ) (h2 : 2 ≤ total) :
    effRamp total rw = min (rw.getD (max 20 (Nat.floor ((total : ℚ) / 10)))) total ∧
    effRamp total rw ≤ total := by
  refine ⟨?_, min_le_right _ _⟩
  unfold effRamp
  rw [Nat.floor_div_ofNat, Nat.floor_natCast]

/-- Witness for the amended C6 at `total_words = 209` with no given
`ramp_words`. -/
theorem default_ramp_amended_witness :
    effRamp 209 none
      = min ((none : Option ℕ).getD (max 20 (Nat.floor ((209 : ℚ) / 10)))) 209 ∧
    effRamp 209 none ≤ 209 :=
  default_ramp_amended 209 none (by norm_num)

/-! ## Claim C7 -/

/-- Claim C7 is false as stated: with `ramp_words = 8` the 6 "equal
word-count steps" would put index 1 in step `⌊6·1/8⌋ = 0` (wpm 200), but the
code uses `words_per_step = max(1, 8 // 6) = 1`, putting index 1 in step 1
(wpm 200 + 400/6). -/
theorem stepped_counterexample :
    (create_wpm_schedule 200 600 10 (some 8) RampStyle.stepped).getD 1 0
        = 200 + 400 / 6 ∧
    claimedSteppedWpm 200 600 (effRamp 10 (some 8)) 1 = 200 ∧
    ¬ (create_wpm_schedule 200 600 10 (some 8) RampStyle.stepped).getD 1 0
        = claimedSteppedWpm 200 600 (effRamp 10 (some 8)) 1 := by
  have heff : effRamp 10 (some 8) = 8 := by norm_num [effRamp]
  have hcode : (create_wpm_schedule 200 600 10 (some 8) RampStyle.stepped).getD 1 0
      = 200 + 400 / 6 := by
    rw [schedule_eq_map 200 600 10 (some 8) RampStyle.stepped (by norm_num),
      getD_map_range _ (by norm_num : (1 : ℕ) < 10), heff]
    norm_num [styleWpm, steppedWpm]
  have hclaim : claimedSteppedWpm 200 600 (effRamp 10 (some 8)) 1 = 200 := by
    rw [heff]
    norm_num [claimedSteppedWpm]
  refine ⟨hcode, hclaim, ?_⟩
  rw [hcode, hclaim]
  norm_num

/-- Claim C7 (amended): the stepped ramp uses steps of
`words_per_step = max(1, ramp_words // 6)` words (these are 6 equal steps
only when 6 divides `ramp_words`); for `i < ramp_words`,
`wpm[i] = start_wpm + min(i // words_per_step, 6) * (peak_wpm - start_wpm) / 6`
— the step index is capped at 6, which caps the value at `peak_wpm` whenever
`start_wpm ≤ peak_wpm` — and `wpm[i] = peak_wpm` for `i ≥ ramp_words`. -/
theorem stepped_schedule_amended (start peak : ℝ) (total : ℕ) (rw : Option ℕ)
    (h2 : 2 ≤ total) (i : ℕ) (hi : i < total) :
    (create_wpm_schedule start peak total rw RampStyle.stepped).getD i 0
        = steppedWpm start peak (effRamp total rw) i ∧
    (start ≤ peak →
      (create_wpm_schedule start peak total rw RampStyle.stepped).getD i 0 ≤ peak) := by
  have hval : (create_wpm_schedule start peak total rw RampStyle.stepped).getD i 0
      = steppedWpm start peak (effRamp total rw) i := by
    rw [schedule_eq_map start peak total rw RampStyle.stepped h2, getD_map_range _ hi]
    rfl
  refine ⟨hval, fun hsp => ?_⟩
  rw [hval]
  exact steppedWpm_le_peak start peak _ hsp i

/-- Witness for the amended C7 at a concrete stepped schedule. -/
theorem stepped_schedule_amended_witness :
    (create_wpm_schedule 200 600 10 (some 8) RampStyle.stepped).getD 1 0
        = steppedWpm 200 600 (effRamp 10 (some 8)) 1 ∧
    ((200 : ℝ) ≤ 600 →
      (create_wpm_schedule 200 600 10 (some 8) RampStyle.stepped).getD 1 0 ≤ 600) :=
  stepped_schedule_amended 200 600 10 (some 8) (by norm_num) 1 (by norm_num)

/-- Witness for the amended C3 on a concrete smooth-ramp schedule. -/
theorem schedule_monotone_and_peak_witness :
    List.Chain' (fun a b => a ≤ b)
      (create_wpm_schedule 200 600 30 (some 5) RampStyle.smooth) ∧
    ∀ i, effRamp 30 (some 5) ≤ i → i < 30 →
      (create_wpm_schedule 200 600 30 (some 5) RampStyle.smooth).getD i 0 = 600 :=
  schedule_monotone_and_peak 200 600 30 (some 5) RampStyle.smooth
    (by norm_num) (by norm_num)

/-! ## Claim C8 -/

/-- Claim C8: for every non-empty word, every in-range ORP index and every
per-character advance-width assignment, `render_word_frame` starts drawing at
`x = width // 2 - sum(char_widths[:orp]) - char_widths[orp] // 2`, so the ORP
character's (integer-halved) horizontal centre lands exactly on the canvas's
horizontal centre `width // 2`. -/
theorem startx_centers_orp (width : ℕ) (cw : Char → ℕ) (word : List Char)
    (orp : ℕ) (h : orp < word.length) :
    startX width cw word orp = claimedStartX width cw word orp ∧
    startX width cw word orp + ((((word.take orp).map cw).sum : ℕ) : ℤ)
        + ((cw (word.getD orp 'A') / 2 : ℕ) : ℤ) = ((width / 2 : ℕ) : ℤ) := by
  have hcl : orpIdxClamped word orp = orp := by
    unfold orpIdxClamped
    have h1 : 1 ≤ word.length := by omega
    have h2 : orp ≤ word.length - 1 := by omega
    exact min_eq_left h2
  have htake : (charWidths cw word).take orp = (word.take orp).map cw := by
    unfold charWidths
    rw [List.map_take]
  have hgd : (charWidths cw word).getD orp 0 = cw (word.getD orp 'A') := by
    unfold charWidths
    rw [List.getD_eq_getElem _ _ (by simpa using h), List.getD_eq_getElem _ _ h]
    simp
  constructor
  · unfold startX claimedStartX
    simp only [hcl, htake, hgd]
  · unfold startX
    simp only [hcl, htake, hgd]
    ring

/-- Witness for C8: the word `"Hi"` with ORP index 1, odd character widths,
canvas width 101. -/
theorem startx_centers_orp_witness :
    startX 101 (fun _ => 11) ['H', 'i'] 1 = claimedStartX 101 (fun _ => 11) ['H', 'i'] 1 ∧
    startX 101 (fun _ => 11) ['H', 'i'] 1
        + (((((['H', 'i'] : List Char).take 1).map fun _ => 11).sum : ℕ) : ℤ)
        + ((((fun _ => 11) ((['H', 'i'] : List Char).getD 1 'A') / 2 : ℕ)) : ℤ)
        = ((101 / 2 : ℕ) : ℤ) :=
  startx_centers_orp 101 (fun _ => 11) ['H', 'i'] 1 (by decide)

/-! ## Claim C10 -/

/-- Claim C10: `render_word_frame` clamps the highlight position to
`min(orp_index, len(word) - 1)` before any use, so for every non-empty word
and arbitrarily large `orp_index` the clamped index is inside the word, the
character-width lookup `char_widths[orp_idx]` reads the actual ORP
character's width, and the per-character colour choice highlights exactly one
drawn character. -/
theorem render_clamp_safe (cw : Char → ℕ) (word : List Char) (orpIndex : ℕ)
    (tc oc : String) (h : word ≠ []) (hc : tc ≠ oc) :
    orpIdxClamped word orpIndex < word.length ∧
    (charWidths cw word).getD (orpIdxClamped word orpIndex) 0
        = cw (word.getD (orpIdxClamped word orpIndex) 'A') ∧
    ((renderChars word orpIndex tc oc).filter fun p => p.2 == oc).length = 1 := by
  have hlen : 1 ≤ word.length := List.length_pos.mpr h
  have hoi : orpIdxClamped word orpIndex < word.length := by
    unfold orpIdxClamped
    have := min_le_right orpIndex (word.length - 1)
    omega
  refine ⟨hoi, ?_, ?_⟩
  · unfold charWidths
    rw [List.getD_eq_getElem _ _ (by simpa using hoi), List.getD_eq_getElem _ _ hoi]
    simp
  · unfold renderChars
    rw [List.filter_map, List.length_map]
    rw [List.filter_congr (q := fun q : ℕ × Char => q.1 == orpIdxClamped word orpIndex) ?_]
    · rw [← List.countP_eq_length_filter]
      rw [show (fun q : ℕ × Char => q.1 == orpIdxClamped word orpIndex)
          = ((fun n => n == orpIdxClamped word orpIndex) ∘ Prod.fst) from rfl]
      rw [← List.countP_map, List.enum_map_fst]
      rw [← List.count_eq_countP]
      exact List.count_eq_one_of_mem (List.nodup_range _) (List.mem_range.mpr hoi)
    · intro q _
      by_cases hqe : q.1 = orpIdxClamped word orpIndex
      · simp [Function.comp, hqe]
      · simp [Function.comp, hqe, hc]

/-! ## Sample values used by witnesses -/

/-- A parameter set satisfying every `VideoParams` constraint (the model's
defaults). -/
def sampleParams : RawParams :=
  { start_wpm := 200
    peak_wpm := 600
    ramp_words := none
    ramp_style := "smooth"
    chunk_duration := none
    width := 1920
    height := 1080
    font_size := 120
    fps := 30
    bg_color := "#1a1a2e"
    text_color := "#ffffff"
    orp_color := "#ff0000"
    show_wpm := true
    preprocess := true }

/-! ## Claim C2 -/

/-- Claim C2: for a job driven by exactly one worker from its initial
PENDING record, every reachable sequence of stored records follows
PENDING → PROCESSING → {COMPLETED | FAILED} only (with stuttering), any
COMPLETED record is preceded by a PROCESSING one, and any FAILED record
carries a non-null `error_message` and a non-null `completed_at`. -/
theorem job_lifecycle (id fn up ca t1 t2 : String) (p : RawParams)
    (out : PipelineOutcome) :
    List.Chain' (fun a b => statusStep a b = true)
      ((workerTrace (initJob id fn up p ca) t1 t2 out).map JobData.status) ∧
    (∀ i, i < ((workerTrace (initJob id fn up p ca) t1 t2 out).map JobData.status).length →
      ((workerTrace (initJob id fn up p ca) t1 t2 out).map JobData.status).getD i .pending
          = .completed →
      ∃ k, k < i ∧
        ((workerTrace (initJob id fn up p ca) t1 t2 out).map JobData.status).getD k .pending
            = .processing) ∧
    (∀ j ∈ workerTrace (initJob id fn up p ca) t1 t2 out, j.status = .failed →
      j.errorMessage ≠ none ∧ j.completedAt ≠ none) := by
  cases out with
  | extractFail msg =>
    have hs : ((workerTrace (initJob id fn up p ca) t1 t2 (.extractFail msg)).map
        JobData.status) = [.pending, .processing, .failed] := rfl
    refine ⟨?_, ?_, ?_⟩
    · rw [hs]
      simp only [List.chain'_cons, List.chain'_singleton, and_true]
      decide
    · rw [hs]
      decide
    · intro j hj hfail
      simp only [workerTrace, List.mem_cons, List.not_mem_nil, or_false] at hj
      rcases hj with rfl | rfl | rfl
      · simp [initJob] at hfail
      · simp [applyUpdate, processingUpdate, initJob] at hfail
      · simp [applyUpdate, failedUpdate]
  | generateFail tw msg =>
    have hs : ((workerTrace (initJob id fn up p ca) t1 t2 (.generateFail tw msg)).map
        JobData.status) = [.pending, .processing, .processing, .processing, .failed] := rfl
    refine ⟨?_, ?_, ?_⟩
    · rw [hs]
      simp only [List.chain'_cons, List.chain'_singleton, and_true]
      decide
    · rw [hs]
      decide
    · intro j hj hfail
      simp only [workerTrace, List.mem_cons, List.not_mem_nil, or_false] at hj
      rcases hj with rfl | rfl | rfl | rfl | rfl
      · simp [initJob] at hfail
      · simp [applyUpdate, processingUpdate, initJob] at hfail
      · simp [applyUpdate, totalWordsUpdate, processingUpdate, initJob] at hfail
      · simp [applyUpdate, generatingUpdate, totalWordsUpdate, processingUpdate,
          initJob] at hfail
      · simp [applyUpdate, failedUpdate]
  | ok tw files dur =>
    have hs : ((workerTrace (initJob id fn up p ca) t1 t2 (.ok tw files dur)).map
        JobData.status) = [.pending, .processing, .processing, .processing, .completed] := rfl
    refine ⟨?_, ?_, ?_⟩
    · rw [hs]
      simp only [List.chain'_cons, List.chain'_singleton, and_true]
      decide
    · rw [hs]
      decide
    · intro j hj hfail
      simp only [workerTrace, List.mem_cons, List.not_mem_nil, or_false] at hj
      rcases hj with rfl | rfl | rfl | rfl | rfl
      · simp [initJob] at hfail
      · simp [applyUpdate, processingUpdate, initJob] at hfail
      · simp [applyUpdate, totalWordsUpdate, processingUpdate, initJob] at hfail
      · simp [applyUpdate, generatingUpdate, totalWordsUpdate, processingUpdate,
          initJob] at hfail
      · simp [applyUpdate, completedUpdate, generatingUpdate, totalWordsUpdate,
          processingUpdate, initJob] at hfail

/-! ## Claim C9 -/

/-- Claim C9: `JobManager.update_job` on a job id with no stored record
returns `None` and writes nothing — the store is unchanged whatever fields
were supplied, so a worker update issued after the job was deleted cannot
recreate the record. -/
theorem update_missing_job_noop (st : JobStore) (id : String) (u : JobUpdates)
    (h : lookupJob st id = none) :
    updateJob st id u = (none, st) := by
  unfold updateJob
  rw [h]

/-- Witness for C9: a worker's terminal update arriving after its job record
was deleted leaves the store without the record and returns `None`. -/
theorem update_missing_job_noop_witness :
    updateJob
        (deleteJob [("a1b2", initJob "a1b2" "doc.txt" "a1b2_doc.txt" sampleParams "t0")]
          "a1b2")
        "a1b2" (failedUpdate "t9" "late update")
      = (none,
        deleteJob [("a1b2", initJob "a1b2" "doc.txt" "a1b2_doc.txt" sampleParams "t0")]
          "a1b2") :=
  update_missing_job_noop _ "a1b2" _ (by decide)

/-! ## Claim C5 -/

/-- Claim C5: a submission with an unsupported extension or invalid
parameters is rejected before any job id is minted and before any record or
upload is written — the whole submission state (job store, upload store, id
supply) is returned unchanged alongside the error. -/
theorem submit_invalid_no_side_effects (st : SubmitState)
    (filename content createdAt : String) (r : RawParams)
    (h : validExt filename = false ∨ validParams r = false) :
    (submit st filename content createdAt r).2 = st ∧
    ∃ e, (submit st filename content createdAt r).1 = Except.error e := by
  rcases h with h | h
  · constructor
    · simp [submit, h]
    · exact ⟨"Invalid file type", by simp [submit, h]⟩
  · by_cases hx : validExt filename = false
    · constructor
      · simp [submit, hx]
      · exact ⟨"Invalid file type", by simp [submit, hx]⟩
    · constructor
      · simp [submit, hx, h]
      · exact ⟨"Invalid parameters", by simp [submit, hx, h]⟩

/-- Witness for C5: submitting `evil.exe` with otherwise valid parameters is
rejected with the state unchanged. -/
theorem submit_invalid_no_side_effects_witness :
    (submit ⟨[], [], ["a1b2c3d4"]⟩ "evil.exe" "data" "t0" sampleParams).2
        = (⟨[], [], ["a1b2c3d4"]⟩ : SubmitState) ∧
    ∃ e, (submit ⟨[], [], ["a1b2c3d4"]⟩ "evil.exe" "data" "t0" sampleParams).1
        = Except.error e :=
  submit_invalid_no_side_effects ⟨[], [], ["a1b2c3d4"]⟩ "evil.exe" "data" "t0"
    sampleParams (Or.inl (by decide))

/-! ## Claim C4 -/

theorem chunkGo_flatten (d : ℚ) (us : List WordUnit) :
    ∀ (cur : List WordUnit) (acc : ℚ),
      (chunkGo d us cur acc).flatten = cur.reverse ++ us := by
  induction us with
  | nil =>
    intro cur acc
    by_cases hc : cur = [] <;> simp [chunkGo, hc]
  | cons u rest ih =>
    intro cur acc
    by_cases hcond : cur = [] ∨ acc + u.duration ≤ d
    · rw [show chunkGo d (u :: rest) cur acc
          = chunkGo d rest (u :: cur) (acc + u.duration) from by
        simp [chunkGo, hcond]]
      rw [ih]
      simp
    · rw [show chunkGo d (u :: rest) cur acc
          = cur.reverse :: chunkGo d rest [u] u.duration from by
        simp [chunkGo, hcond]]
      simp [ih]

theorem chunkGo_ne_nil (d : ℚ) (us : List WordUnit) :
    ∀ (cur : List WordUnit) (acc : ℚ) (c : List WordUnit),
      c ∈ chunkGo d us cur acc → c ≠ [] := by
  induction us with
  | nil =>
    intro cur acc c hc
    by_cases hcur : cur = []
    · simp [chunkGo, hcur] at hc
    · simp [chunkGo, hcur] at hc
      simp [hc, hcur]
  | cons u rest ih =>
    intro cur acc c hc
    by_cases hcond : cur = [] ∨ acc + u.duration ≤ d
    · rw [show chunkGo d (u :: rest) cur acc
          = chunkGo d rest (u :: cur) (acc + u.duration) from by
        simp [chunkGo, hcond]] at hc
      exact ih _ _ _ hc
    · rw [show chunkGo d (u :: rest) cur acc
          = cur.reverse :: chunkGo d rest [u] u.duration from by
        simp [chunkGo, hcond]] at hc
      push_neg at hcond
      rcases List.mem_cons.mp hc with hce | hcm
      · simp [hce, hcond.1]
      · exact ih _ _ _ hcm

/-- Claim C4: chunked assembly partitions the WordUnit sequence into
contiguous runs; concatenating the chunks' word sequences in emission order
reconstructs the original sequence exactly (so each unit lies in exactly one
chunk and no chunk boundary splits a word), and no emitted chunk is empty. -/
theorem chunk_reassembly (d : ℚ) (us : List WordUnit) :
    (chunkUnits d us).flatten = us ∧ ∀ c ∈ chunkUnits d us, c ≠ [] := by
  refine ⟨?_, fun c hc => chunkGo_ne_nil d us [] 0 c hc⟩
  rw [chunkUnits, chunkGo_flatten]
  simp

/-- Witness for C10: an all-punctuation word of length 2 with
`orp_index = 5 ≥ len(word)`. -/
theorem render_clamp_safe_witness :
    orpIdxClamped ['.', '.'] 5 < (['.', '.'] : List Char).length ∧
    (charWidths (fun _ => 7) ['.', '.']).getD (orpIdxClamped ['.', '.'] 5) 0
        = (fun _ => 7) ((['.', '.'] : List Char).getD (orpIdxClamped ['.', '.'] 5) 'A') ∧
    ((renderChars ['.', '.'] 5 "white" "red").filter fun p => p.2 == "red").length = 1 :=
  render_clamp_safe (fun _ => 7) ['.', '.'] 5 "white" "red" (by decide)
    (by decide)
